import Mathlib

/-
Verification development for the object-browser persistence layer and the
object-graph walker of the `idnt` repository (src/layout_editor.py and
src/settings_window.py).

The Python value domain is embedded as the inductive type `PyVal`.  Byte
streams and Python text strings are both embedded as `List Nat`: a text
string is its sequence of Unicode code points, a byte stream is a sequence
of abstract byte values.  The external stdlib codecs used by the source
(`pickle`, `json`, UTF-8 `str.encode`/`bytes.decode`) are modelled as
executable Lean codecs that are faithful to the observable contract the
source relies on:

* `pickleEnc`/`pickleDec` are a structural tag-length encoding whose tags
  lie in the Unicode surrogate range, mirroring the fact that binary pickle
  streams (protocol 2 and later, which `pickle.dumps` emits) begin with the
  0x80 marker byte and are therefore never valid UTF-8 text.  `pickle.dumps`
  fails exactly on values containing a non-serializable foreign object
  (GUI widgets, lambdas, ...), modelled by the `PyVal.foreign` constructor.
* UTF-8 is modelled as the identity codec on valid Unicode scalar values:
  encoding or decoding fails exactly when the sequence contains a value
  that is not a Unicode scalar value (surrogates, out-of-range values).
  This captures the two facts the source depends on: text made of scalar
  values round-trips, and binary pickle output never decodes as text.
* `jsonDumps`/`jsonLoads` are a structured-text codec: `jsonDumps` fails
  exactly on values JSON cannot represent (`bytes`, foreign objects),
  mirroring `json.dumps` raising `TypeError`; non-ASCII code points are
  escaped so the emitted text is always ASCII, mirroring `ensure_ascii`.
  `jsonLoads` is a recursive-descent parser of JSON texts.
-/

/-- Embedded Python values.  `str` carries Unicode code points, `bytes`
carries byte values, `dict` keys are strings (code-point lists), and
`foreign` stands for any other live object (widget, callable, handle, ...)
together with whether `pickle` can serialize it. -/
inductive PyVal where
  | none
  | bool (b : Bool)
  | int (n : Int)
  | str (s : List Nat)
  | bytes (bs : List Nat)
  | list (xs : List PyVal)
  | tuple (xs : List PyVal)
  | dict (kvs : List (List Nat × PyVal))
  | foreign (id : Nat) (serializable : Bool)

/-- Python's `x is None` test. -/
def isNoneB : PyVal → Bool
  | .none => true
  | _ => false

/-- `isinstance(x, bytes)`. -/
def isBytesB : PyVal → Bool
  | .bytes _ => true
  | _ => false

/-- `isinstance(x, str)`. -/
def isStrB : PyVal → Bool
  | .str _ => true
  | _ => false

/-- `isinstance(x, (int, float))`.  In Python `bool` is a subclass of
`int`, so boolean values satisfy this test. -/
def isNumB : PyVal → Bool
  | .int _ => true
  | .bool _ => true
  | _ => false

/-- `isinstance(x, (dict, list, tuple))`. -/
def isContainerB : PyVal → Bool
  | .dict _ => true
  | .list _ => true
  | .tuple _ => true
  | _ => false

/-- Payload of a `bytes` value (callers guard with `isBytesB`). -/
def bytesOf : PyVal → List Nat
  | .bytes bs => bs
  | _ => []

/-- Payload of a `str` value (callers guard with `isStrB`). -/
def strOf : PyVal → List Nat
  | .str s => s
  | _ => []

/-- A valid Unicode scalar value: in range and not a surrogate. -/
def isValidCP (c : Nat) : Bool :=
  decide (c < 1114112) && !(decide (55296 ≤ c) && decide (c ≤ 57343))

/-- Model of `str.encode("utf-8")`: succeeds (as the identity on code
points) exactly when every code point is a Unicode scalar value; Python
strings can carry lone surrogates, for which encoding raises. -/
def utf8Encode (s : List Nat) : Option (List Nat) :=
  if s.all isValidCP then some s else none

/-- Model of `bytes.decode("utf-8")`: succeeds (as the identity) exactly
when every element is a Unicode scalar value.  Binary pickle output
contains surrogate-range tag values and therefore never decodes. -/
def utf8Decode (b : List Nat) : Option (List Nat) :=
  if b.all isValidCP then some b else none

/-- Code points of a Lean string literal (ASCII label helper). -/
def strCps (s : String) : List Nat := s.data.map Char.toNat

/-- Decimal digits (as code points) of a natural number. -/
def natToDec (n : Nat) : List Nat := (Nat.toDigits 10 n).map Char.toNat

/-- Model of Python `str()` on an integer: decimal text code points. -/
def intToDec (n : Int) : List Nat :=
  if n < 0 then 45 :: natToDec (-n).toNat else natToDec n.toNat

/-- Model of Python `str()` on a value of number type (`int`, `float`,
or `bool`, since `bool` is an `int`): `str(True)` is `"True"`. -/
def pyNumStr : PyVal → List Nat
  | .int n => intToDec n
  | .bool true => strCps "True"
  | .bool false => strCps "False"
  | _ => []

/-! ### The pickle codec model

Tag values sit in the surrogate range 55296..57343 so that pickle output is
never valid text, like real binary pickle streams beginning with 0x80. -/

def tNone : Nat := 55296
def tTrue : Nat := 55297
def tFalse : Nat := 55298
def tIntNN : Nat := 55299
def tIntNeg : Nat := 55300
def tStr : Nat := 55301
def tBytes : Nat := 55302
def tList : Nat := 55303
def tTuple : Nat := 55304
def tDict : Nat := 55305
def tForeign : Nat := 55306

mutual

/-- Structural serialization of a value to a byte stream (the encoding
part of the `pickle.dumps` model). -/
def pickleEnc : PyVal → List Nat
  | .none => [tNone]
  | .bool true => [tTrue]
  | .bool false => [tFalse]
  | .int n => if n < 0 then [tIntNeg, (-n).toNat] else [tIntNN, n.toNat]
  | .str s => tStr :: s.length :: s
  | .bytes bs => tBytes :: bs.length :: bs
  | .list xs => tList :: xs.length :: pickleEncL xs
  | .tuple xs => tTuple :: xs.length :: pickleEncL xs
  | .dict kvs => tDict :: kvs.length :: pickleEncKV kvs
  | .foreign i _ => [tForeign, i]

/-- Serialization of consecutive list elements. -/
def pickleEncL : List PyVal → List Nat
  | [] => []
  | v :: vs => pickleEnc v ++ pickleEncL vs

/-- Serialization of consecutive dict entries (length-prefixed key, then
the value). -/
def pickleEncKV : List (List Nat × PyVal) → List Nat
  | [] => []
  | kv :: rest => kv.1.length :: kv.1 ++ pickleEnc kv.2 ++ pickleEncKV rest

end

mutual

/-- Whether `pickle.dumps` succeeds on the value: it fails exactly when
the value contains a non-serializable foreign object. -/
def picklableB : PyVal → Bool
  | .foreign _ ser => ser
  | .list xs => picklableL xs
  | .tuple xs => picklableL xs
  | .dict kvs => picklableKV kvs
  | _ => true

/-- All list elements serializable. -/
def picklableL : List PyVal → Bool
  | [] => true
  | v :: vs => picklableB v && picklableL vs

/-- All dict values serializable. -/
def picklableKV : List (List Nat × PyVal) → Bool
  | [] => true
  | kv :: rest => picklableB kv.2 && picklableKV rest

end

/-- Model of `pickle.dumps`: serializes the whole value in memory, or
fails atomically when the value is not serializable. -/
def pickleDumps (v : PyVal) : Option (List Nat) :=
  if picklableB v then some (pickleEnc v) else none

/-- Decode `n` consecutive values with the element decoder `d`. -/
def decListWith (d : List Nat → Option (PyVal × List Nat)) :
    Nat → List Nat → Option (List PyVal × List Nat)
  | 0, r => some ([], r)
  | n + 1, r =>
    (d r).bind fun p =>
      (decListWith d n p.2).map fun q => (p.1 :: q.1, q.2)

/-- Decode `n` consecutive dict entries (length-prefixed key, then the
value decoded with `d`). -/
def decKVWith (d : List Nat → Option (PyVal × List Nat)) :
    Nat → List Nat → Option (List (List Nat × PyVal) × List Nat)
  | 0, r => some ([], r)
  | n + 1, r =>
    match r with
    | klen :: r1 =>
      if r1.length < klen then Option.none
      else
        (d (r1.drop klen)).bind fun p =>
          (decKVWith d n p.2).map fun q => ((r1.take klen, p.1) :: q.1, q.2)
    | [] => Option.none

/-- Fueled decoder for the pickle stream model: reads one value, returns
it with the unread remainder of the stream. -/
def pickleDec : Nat → List Nat → Option (PyVal × List Nat)
  | 0, _ => Option.none
  | _ + 1, [] => Option.none
  | f + 1, c :: r =>
    if c = tNone then some (.none, r)
    else if c = tTrue then some (.bool true, r)
    else if c = tFalse then some (.bool false, r)
    else if c = tIntNN then
      match r with
      | m :: r1 => some (.int (Int.ofNat m), r1)
      | [] => Option.none
    else if c = tIntNeg then
      match r with
      | m :: r1 => some (.int (-(Int.ofNat m)), r1)
      | [] => Option.none
    else if c = tStr then
      match r with
      | len :: r1 =>
        if r1.length < len then Option.none
        else some (.str (r1.take len), r1.drop len)
      | [] => Option.none
    else if c = tBytes then
      match r with
      | len :: r1 =>
        if r1.length < len then Option.none
        else some (.bytes (r1.take len), r1.drop len)
      | [] => Option.none
    else if c = tList then
      match r with
      | n :: r1 => (decListWith (pickleDec f) n r1).map (fun p => (.list p.1, p.2))
      | [] => Option.none
    else if c = tTuple then
      match r with
      | n :: r1 => (decListWith (pickleDec f) n r1).map (fun p => (.tuple p.1, p.2))
      | [] => Option.none
    else if c = tDict then
      match r with
      | n :: r1 => (decKVWith (pickleDec f) n r1).map (fun p => (.dict p.1, p.2))
      | [] => Option.none
    else if c = tForeign then
      match r with
      | i :: r1 => some (.foreign i true, r1)
      | [] => Option.none
    else Option.none

/-- Model of `pickle.loads`: decode one value from the stream (real
`pickle.loads` ignores trailing bytes after the end-of-pickle opcode). -/
def pickleLoads (data : List Nat) : Option PyVal :=
  (pickleDec (data.length + 1) data).map Prod.fst

/-! ### Round-trip of the pickle codec -/

theorem takeLenApp {α : Type} (a b : List α) : (a ++ b).take a.length = a := by
  induction a with
  | nil => simp
  | cons x t ih => simp [ih]

theorem dropLenApp {α : Type} (a b : List α) : (a ++ b).drop a.length = b := by
  induction a with
  | nil => simp
  | cons x t ih => simp [ih]

theorem enc_length_pos : ∀ v : PyVal, 1 ≤ (pickleEnc v).length := by
  intro v
  cases v with
  | bool b => cases b <;> simp [pickleEnc]
  | int n => rcases Decidable.em (n < 0) with hn | hn <;> simp [pickleEnc, hn]
  | _ => simp [pickleEnc]

theorem encL_mem_le :
    ∀ (xs : List PyVal) (v : PyVal), v ∈ xs →
      (pickleEnc v).length ≤ (pickleEncL xs).length := by
  intro xs
  induction xs with
  | nil => intro v hv; cases hv
  | cons x t ih =>
    intro v hv
    rcases List.mem_cons.mp hv with h | h
    · subst h; simp [pickleEncL]
    · have := ih v h
      simp [pickleEncL]
      omega

theorem encKV_mem_le :
    ∀ (kvs : List (List Nat × PyVal)) (kv : List Nat × PyVal), kv ∈ kvs →
      (pickleEnc kv.2).length ≤ (pickleEncKV kvs).length := by
  intro kvs
  induction kvs with
  | nil => intro kv hkv; cases hkv
  | cons x t ih =>
    intro kv hkv
    rcases List.mem_cons.mp hkv with h | h
    · subst h; simp [pickleEncKV]; omega
    · have := ih kv h
      simp [pickleEncKV]
      omega

theorem picklableL_mem :
    ∀ (xs : List PyVal), picklableL xs = true →
      ∀ v, v ∈ xs → picklableB v = true := by
  intro xs
  induction xs with
  | nil => intro _ v hv; cases hv
  | cons x t ih =>
    intro h v hv
    rw [picklableL, Bool.and_eq_true] at h
    rcases List.mem_cons.mp hv with h1 | h1
    · subst h1; exact h.1
    · exact ih h.2 v h1

theorem picklableKV_mem :
    ∀ (kvs : List (List Nat × PyVal)), picklableKV kvs = true →
      ∀ kv, kv ∈ kvs → picklableB kv.2 = true := by
  intro kvs
  induction kvs with
  | nil => intro _ kv hkv; cases hkv
  | cons x t ih =>
    intro h kv hkv
    rw [picklableKV, Bool.and_eq_true] at h
    rcases List.mem_cons.mp hkv with h1 | h1
    · subst h1; exact h.1
    · exact ih h.2 kv h1

theorem decListWith_enc (d : List Nat → Option (PyVal × List Nat)) :
    ∀ (xs : List PyVal) (rest : List Nat),
      (∀ v, v ∈ xs → ∀ r, d (pickleEnc v ++ r) = some (v, r)) →
      decListWith d xs.length (pickleEncL xs ++ rest) = some (xs, rest) := by
  intro xs
  induction xs with
  | nil => intro rest _; simp [pickleEncL, decListWith]
  | cons v vs ih =>
    intro rest h
    have hv := h v (List.mem_cons_self v vs) (pickleEncL vs ++ rest)
    have htail := ih rest (fun w hw r => h w (List.mem_cons_of_mem v hw) r)
    simp [pickleEncL, List.append_assoc, decListWith, hv, htail]

theorem decKVWith_enc (d : List Nat → Option (PyVal × List Nat)) :
    ∀ (kvs : List (List Nat × PyVal)) (rest : List Nat),
      (∀ kv, kv ∈ kvs → ∀ r, d (pickleEnc kv.2 ++ r) = some (kv.2, r)) →
      decKVWith d kvs.length (pickleEncKV kvs ++ rest) = some (kvs, rest) := by
  intro kvs
  induction kvs with
  | nil => intro rest _; simp [pickleEncKV, decKVWith]
  | cons kv kvs ih =>
    obtain ⟨k, w⟩ := kv
    intro rest h
    have hv := h (k, w) (List.mem_cons_self (k, w) kvs) (pickleEncKV kvs ++ rest)
    have htail := ih rest (fun kw hkw r => h kw (List.mem_cons_of_mem (k, w) hkw) r)
    have hsplit :
        pickleEncKV ((k, w) :: kvs) ++ rest =
          k.length :: (k ++ (pickleEnc w ++ (pickleEncKV kvs ++ rest))) := by
      simp [pickleEncKV, List.append_assoc]
    rw [hsplit]
    have hlen : ¬ (k ++ (pickleEnc w ++ (pickleEncKV kvs ++ rest))).length < k.length := by
      simp [List.length_append]
    simp only [List.length_cons, decKVWith, hlen, if_neg, takeLenApp, dropLenApp]
    simp [hv, htail]

theorem pickleDec_enc :
    ∀ (f : Nat) (v : PyVal) (rest : List Nat), picklableB v = true →
      (pickleEnc v).length ≤ f →
      pickleDec f (pickleEnc v ++ rest) = some (v, rest) := by
  intro f
  induction f with
  | zero =>
    intro v rest _ hlen
    have := enc_length_pos v
    omega
  | succ f ih =>
    intro v rest hp hlen
    cases v with
    | none => rfl
    | bool b => cases b <;> rfl
    | int n =>
      rcases Decidable.em (n < 0) with hn | hn
      · have h1 : pickleEnc (PyVal.int n) = [tIntNeg, (-n).toNat] := by
          simp [pickleEnc, hn]
        rw [h1]
        show pickleDec (f + 1) (tIntNeg :: (-n).toNat :: rest) = some (.int n, rest)
        rw [pickleDec]
        norm_num [tNone, tTrue, tFalse, tIntNN, tIntNeg]
        omega
      · have h1 : pickleEnc (PyVal.int n) = [tIntNN, n.toNat] := by
          simp [pickleEnc, hn]
        rw [h1]
        show pickleDec (f + 1) (tIntNN :: n.toNat :: rest) = some (.int n, rest)
        rw [pickleDec]
        norm_num [tNone, tTrue, tFalse, tIntNN]
        omega
    | str s =>
      show pickleDec (f + 1) (tStr :: s.length :: (s ++ rest)) = some (.str s, rest)
      rw [pickleDec]
      have hlt : ¬ (s ++ rest).length < s.length := by simp [List.length_append]
      norm_num [tNone, tTrue, tFalse, tIntNN, tIntNeg, tStr, hlt, takeLenApp, dropLenApp]
    | bytes bs =>
      show pickleDec (f + 1) (tBytes :: bs.length :: (bs ++ rest)) = some (.bytes bs, rest)
      rw [pickleDec]
      have hlt : ¬ (bs ++ rest).length < bs.length := by simp [List.length_append]
      norm_num [tNone, tTrue, tFalse, tIntNN, tIntNeg, tStr, tBytes, hlt, takeLenApp,
        dropLenApp]
    | list xs =>
      show pickleDec (f + 1) (tList :: xs.length :: (pickleEncL xs ++ rest)) =
        some (.list xs, rest)
      rw [pickleDec]
      have hrec : ∀ v, v ∈ xs → ∀ r, pickleDec f (pickleEnc v ++ r) = some (v, r) := by
        intro v hv r
        have hple : picklableB v = true := picklableL_mem xs (by simpa [picklableB] using hp) v hv
        have hle : (pickleEnc v).length ≤ f := by
          have h1 := encL_mem_le xs v hv
          have h2 : (pickleEnc (PyVal.list xs)).length = 2 + (pickleEncL xs).length := by
            simp [pickleEnc]; omega
          omega
        exact ih v r hple hle
      norm_num [tNone, tTrue, tFalse, tIntNN, tIntNeg, tStr, tBytes, tList,
        decListWith_enc (pickleDec f) xs rest hrec]
    | tuple xs =>
      show pickleDec (f + 1) (tTuple :: xs.length :: (pickleEncL xs ++ rest)) =
        some (.tuple xs, rest)
      rw [pickleDec]
      have hrec : ∀ v, v ∈ xs → ∀ r, pickleDec f (pickleEnc v ++ r) = some (v, r) := by
        intro v hv r
        have hple : picklableB v = true := picklableL_mem xs (by simpa [picklableB] using hp) v hv
        have hle : (pickleEnc v).length ≤ f := by
          have h1 := encL_mem_le xs v hv
          have h2 : (pickleEnc (PyVal.tuple xs)).length = 2 + (pickleEncL xs).length := by
            simp [pickleEnc]; omega
          omega
        exact ih v r hple hle
      norm_num [tNone, tTrue, tFalse, tIntNN, tIntNeg, tStr, tBytes, tList, tTuple,
        decListWith_enc (pickleDec f) xs rest hrec]
    | dict kvs =>
      show pickleDec (f + 1) (tDict :: kvs.length :: (pickleEncKV kvs ++ rest)) =
        some (.dict kvs, rest)
      rw [pickleDec]
      have hrec : ∀ kv, kv ∈ kvs → ∀ r, pickleDec f (pickleEnc kv.2 ++ r) = some (kv.2, r) := by
        intro kv hkv r
        have hple : picklableB kv.2 = true :=
          picklableKV_mem kvs (by simpa [picklableB] using hp) kv hkv
        have hle : (pickleEnc kv.2).length ≤ f := by
          have h1 := encKV_mem_le kvs kv hkv
          have h2 : (pickleEnc (PyVal.dict kvs)).length = 2 + (pickleEncKV kvs).length := by
            simp [pickleEnc]; omega
          omega
        exact ih kv.2 r hple hle
      norm_num [tNone, tTrue, tFalse, tIntNN, tIntNeg, tStr, tBytes, tList, tTuple, tDict,
        decKVWith_enc (pickleDec f) kvs rest hrec]
    | foreign i ser =>
      have hser : ser = true := by simpa [picklableB] using hp
      subst hser
      rfl

/-- Decoding inverts encoding: the pickle model is a faithful codec on
serializable values. -/
theorem pickle_roundtrip (v : PyVal) (h : picklableB v = true) :
    pickleLoads (pickleEnc v) = some v := by
  have hd := pickleDec_enc ((pickleEnc v).length + 1) v [] h (by omega)
  rw [List.append_nil] at hd
  rw [pickleLoads, hd]
  rfl

/-! ### The JSON codec model (`json.dumps` / `json.loads`) -/

/-- Escape of one code point in emitted JSON text: quote and backslash are
backslash-escaped; non-ASCII code points are backslash-u escaped (the model
writes the decimal digits), mirroring `ensure_ascii=True`, so emitted JSON
text is always ASCII and always UTF-8 encodable. -/
def escapeCp (c : Nat) : List Nat :=
  if c = 34 || c = 92 then [92, c]
  else if 128 ≤ c then 92 :: 117 :: natToDec c
  else [c]

mutual

/-- Model of `json.dumps`: structured, human-readable text for `None`,
booleans, numbers, strings, lists/tuples (arrays) and string-keyed dicts
(objects); fails (`TypeError`) on `bytes` and foreign objects.  The
`indent=2` pretty-printing whitespace of the source call is abstracted
away; it does not affect which values are representable. -/
def jsonDumps : PyVal → Option (List Nat)
  | .none => some (strCps "null")
  | .bool true => some (strCps "true")
  | .bool false => some (strCps "false")
  | .int n => some (intToDec n)
  | .str s => some (34 :: (s.map escapeCp).flatten ++ [34])
  | .bytes _ => Option.none
  | .list xs => (jsonDumpsL xs).map fun parts => 91 :: parts ++ [93]
  | .tuple xs => (jsonDumpsL xs).map fun parts => 91 :: parts ++ [93]
  | .dict kvs => (jsonDumpsKV kvs).map fun parts => 123 :: parts ++ [125]
  | .foreign _ _ => Option.none

/-- Comma-separated array elements. -/
def jsonDumpsL : List PyVal → Option (List Nat)
  | [] => some []
  | [v] => jsonDumps v
  | v :: vs =>
    (jsonDumps v).bind fun a => (jsonDumpsL vs).map fun b => a ++ 44 :: b

/-- Comma-separated object members (quoted key, colon, value). -/
def jsonDumpsKV : List (List Nat × PyVal) → Option (List Nat)
  | [] => some []
  | [kv] =>
    (jsonDumps kv.2).map fun b => 34 :: (kv.1.map escapeCp).flatten ++ 34 :: 58 :: b
  | kv :: rest =>
    (jsonDumps kv.2).bind fun b =>
      (jsonDumpsKV rest).map fun c =>
        34 :: (kv.1.map escapeCp).flatten ++ 34 :: 58 :: b ++ 44 :: c

end

/-- JSON whitespace. -/
def isWsCp (c : Nat) : Bool := c = 32 || c = 9 || c = 10 || c = 13

/-- Drop leading JSON whitespace. -/
def skipWs : List Nat → List Nat
  | [] => []
  | c :: r => if isWsCp c then skipWs r else c :: r

/-- ASCII decimal digit. -/
def isDigitCp (c : Nat) : Bool := 48 ≤ c && c ≤ 57

/-- Read a run of decimal digits as a natural number. -/
def readDigits (acc : Nat) : List Nat → Nat × List Nat
  | [] => (acc, [])
  | c :: r => if isDigitCp c then readDigits (acc * 10 + (c - 48)) r else (acc, c :: r)

/-- Read the body of a JSON string up to the closing quote; a backslash
takes the next code point literally. -/
def readStr : List Nat → Option (List Nat × List Nat)
  | [] => Option.none
  | 34 :: r => some ([], r)
  | 92 :: c :: r => (readStr r).map fun p => (c :: p.1, p.2)
  | c :: r => (readStr r).map fun p => (c :: p.1, p.2)

mutual

/-- Fueled recursive-descent parse of one JSON value. -/
def parseVal : Nat → List Nat → Option (PyVal × List Nat)
  | 0, _ => Option.none
  | f + 1, s =>
    match skipWs s with
    | 110 :: 117 :: 108 :: 108 :: r => some (.none, r)
    | 116 :: 114 :: 117 :: 101 :: r => some (.bool true, r)
    | 102 :: 97 :: 108 :: 115 :: 101 :: r => some (.bool false, r)
    | 34 :: r => (readStr r).map fun p => (.str p.1, p.2)
    | 91 :: r =>
      (match skipWs r with
       | 93 :: r1 => some (.list [], r1)
       | r1 => (parseItems f r1).map fun p => (.list p.1, p.2))
    | 123 :: r =>
      (match skipWs r with
       | 125 :: r1 => some (.dict [], r1)
       | r1 => (parsePairs f r1).map fun p => (.dict p.1, p.2))
    | 45 :: c :: r =>
      if isDigitCp c then
        match readDigits (c - 48) r with
        | (n, r1) => some (.int (-(Int.ofNat n)), r1)
      else Option.none
    | c :: r =>
      if isDigitCp c then
        match readDigits (c - 48) r with
        | (n, r1) => some (.int (Int.ofNat n), r1)
      else Option.none
    | [] => Option.none

/-- Array elements after the opening bracket. -/
def parseItems : Nat → List Nat → Option (List PyVal × List Nat)
  | 0, _ => Option.none
  | f + 1, s =>
    (parseVal f s).bind fun p =>
      match skipWs p.2 with
      | 44 :: r => (parseItems f r).map fun q => (p.1 :: q.1, q.2)
      | 93 :: r => some ([p.1], r)
      | _ => Option.none

/-- Object members after the opening brace. -/
def parsePairs : Nat → List Nat → Option (List (List Nat × PyVal) × List Nat)
  | 0, _ => Option.none
  | f + 1, s =>
    match skipWs s with
    | 34 :: r =>
      (readStr r).bind fun kp =>
        match skipWs kp.2 with
        | 58 :: r1 =>
          (parseVal f r1).bind fun p =>
            match skipWs p.2 with
            | 44 :: r2 => (parsePairs f r2).map fun q => ((kp.1, p.1) :: q.1, q.2)
            | 125 :: r2 => some ([(kp.1, p.1)], r2)
            | _ => Option.none
        | _ => Option.none
    | _ => Option.none

end

/-- Model of `json.loads`: parse one JSON value and require only trailing
whitespace after it. -/
def jsonLoads (s : List Nat) : Option PyVal :=
  match parseVal (s.length + 1) s with
  | some p => if (skipWs p.2).isEmpty then some p.1 else Option.none
  | Option.none => Option.none

/-- Step 2 of the binary load chain, `data.decode("utf-8")` followed by
`json.loads`; both run inside one `try` in the source. -/
def jsonStep (data : List Nat) : Option PyVal :=
  (utf8Decode data).bind jsonLoads

/-! ### Association lists as the model of Python `dict`

Python dict semantics as used by the source: lookup finds the (unique)
binding; assignment replaces the value of an existing key in place and
appends a new key at the end. -/

/-- Dictionary lookup, `d.get(k)` / `k in d`. -/
def lookupS {α : Type} : List (String × α) → String → Option α
  | [], _ => Option.none
  | kv :: t, k => if kv.1 = k then some kv.2 else lookupS t k

/-- Dictionary assignment `d[k] = v`: replace the binding in place, or
append a fresh one. -/
def setS {α : Type} : List (String × α) → String → α → List (String × α)
  | [], k, v => [(k, v)]
  | kv :: t, k, v => if kv.1 = k then (k, v) :: t else kv :: setS t k v

/-- The `self.loaded_objects` store: user-chosen name to loaded value. -/
def Store : Type := List (String × PyVal)

/-! ### PersistenceCodec: the save paths of src/layout_editor.py -/

/-- Outcome of a save action: the content written to the chosen file (if
any file was created at all), and whether an error dialog was shown. -/
structure SaveOutcome where
  fileWritten : Option (List Nat)
  errorReported : Bool

/-- Model of `ObjectBrowser.save_object_python` (src/layout_editor.py,
lines 597-616): pickle to an in-memory buffer first; if that raises, show
the error and return without opening the file; otherwise open the file and
write that same buffer. -/
def save_object_python (v : PyVal) : SaveOutcome :=
  match pickleDumps v with
  | Option.none => ⟨Option.none, true⟩
  | some testData => ⟨some testData, false⟩

/-- Outcome of the binary save conversion chain: the bytes written with
the reported conversion method, or an abort with an error dialog and no
file written. -/
inductive BinSave where
  | written (data : List Nat) (method : String)
  | aborted (msg : String)

/-- Model of the type-directed conversion chain of
`ObjectBrowser.save_object_binary` (src/layout_editor.py, lines 785-841):
bytes unchanged; str UTF-8 encoded (abort on encoding error); int/float as
decimal text (`str(x).encode("utf-8")`, which cannot fail on the ASCII
text `str` produces for numbers, so it is modelled as the text itself);
dict/list/tuple as JSON with a pickle fallback (abort when both fail);
anything else pickled (abort on failure). -/
def save_object_binary (v : PyVal) : BinSave :=
  if isBytesB v then .written (bytesOf v) "raw bytes"
  else if isStrB v then
    match utf8Encode (strOf v) with
    | some d => .written d "UTF-8 encoded text"
    | Option.none => .aborted "Encoding Error"
  else if isNumB v then .written (pyNumStr v) "number as UTF-8 text"
  else if isContainerB v then
    match jsonDumps v with
    | some js => .written js "JSON encoded"
    | Option.none =>
      match pickleDumps v with
      | some d => .written d "pickle (JSON failed)"
      | Option.none => .aborted "Conversion Failed"
  else
    match pickleDumps v with
    | some d => .written d "pickle"
    | Option.none => .aborted "Cannot Convert"

/-- A conversion rule: a type guard and the conversion applied when the
guard is the first to match. -/
def ConvRule : Type := (PyVal → Bool) × (PyVal → BinSave)

/-- Apply the first rule whose guard matches (the source chain always
matches, so the empty-list fallback is never reached). -/
def firstMatch : List ConvRule → PyVal → BinSave
  | [], _ => .aborted "Conversion Failed"
  | rule :: rest, v => if rule.1 v then rule.2 v else firstMatch rest v

/-- The conversion chain exactly as the specification states it: five
rules, tried in this fixed order, first match wins. -/
def binRules : List ConvRule :=
  [ (isBytesB, fun v => .written (bytesOf v) "raw bytes"),
    (isStrB, fun v =>
      match utf8Encode (strOf v) with
      | some d => .written d "UTF-8 encoded text"
      | Option.none => .aborted "Encoding Error"),
    (isNumB, fun v => .written (pyNumStr v) "number as UTF-8 text"),
    (isContainerB, fun v =>
      match jsonDumps v with
      | some js => .written js "JSON encoded"
      | Option.none =>
        match pickleDumps v with
        | some d => .written d "pickle (JSON failed)"
        | Option.none => .aborted "Conversion Failed"),
    (fun _ => true, fun v =>
      match pickleDumps v with
      | some d => .written d "pickle"
      | Option.none => .aborted "Cannot Convert") ]

/-! ### PersistenceCodec: the load paths of src/layout_editor.py -/

/-- State of the format-sniffing chain inside
`ObjectBrowser.load_object_binary`: the `loaded_obj` variable (initially
the Python value `None`, which doubles as the not-yet-decoded sentinel),
the `interpretation` label and the `attempts` diagnostic list. -/
structure ChainResult where
  obj : PyVal
  interpretation : String
  attempts : List String

/-- Chain step 1 (lines 909-914): try `pickle.loads`; on success take the
value and label the interpretation; on failure record the attempt. -/
def chain1 (data : List Nat) : ChainResult :=
  match pickleLoads data with
  | some v => ⟨v, "Python pickle", []⟩
  | Option.none => ⟨PyVal.none, "unknown", ["Pickle"]⟩

/-- Chain step 2 (lines 916-923), guarded by `loaded_obj is None`: UTF-8
decode then `json.loads`; on failure record the attempt. -/
def chain2 (data : List Nat) (r : ChainResult) : ChainResult :=
  if isNoneB r.obj then
    match jsonStep data with
    | some v => ⟨v, "JSON", r.attempts⟩
    | Option.none => ⟨r.obj, r.interpretation, r.attempts ++ ["JSON"]⟩
  else r

/-- Chain step 3 (lines 925-931), guarded by `loaded_obj is None`: UTF-8
decode as plain text; on failure record the attempt. -/
def chain3 (data : List Nat) (r : ChainResult) : ChainResult :=
  if isNoneB r.obj then
    match utf8Decode data with
    | some s => ⟨PyVal.str s, "UTF-8 text", r.attempts⟩
    | Option.none => ⟨r.obj, r.interpretation, r.attempts ++ ["UTF-8"]⟩
  else r

/-- Chain step 4 (lines 933-936), guarded by `loaded_obj is None`: keep
the raw bytes unmodified. -/
def chain4 (data : List Nat) (r : ChainResult) : ChainResult :=
  if isNoneB r.obj then ⟨PyVal.bytes data, "raw bytes", r.attempts⟩ else r

/-- The format-sniffing fallback chain of `ObjectBrowser.load_object_binary`
(src/layout_editor.py, lines 900-936). -/
def load_chain (data : List Nat) : ChainResult :=
  chain4 data (chain3 data (chain2 data (chain1 data)))

/-! ### ConfigStore: src/settings_window.py -/

/-- Scalar setting values occurring in the default document. -/
inductive SVal where
  | vb (b : Bool)
  | vn (n : Int)
  | vs (s : String)

/-- A settings document: category name to flat key-value map. -/
def Doc : Type := List (String × List (String × SVal))

/-- The hard-coded `default_settings` document of
`SettingsWindow.load_settings` (src/settings_window.py, lines 34-85). -/
def defaultSettings : Doc :=
  [ ("browser",
     [ ("max_depth", .vn 6),
       ("show_private", .vb false),
       ("show_magic", .vb true),
       ("expand_on_select", .vb true),
       ("auto_refresh", .vb false),
       ("search_case_sensitive", .vb false) ]),
    ("display",
     [ ("theme", .vs "default"),
       ("font_family", .vs "Courier"),
       ("font_size", .vn 10),
       ("tree_font_size", .vn 9),
       ("window_width", .vn 1400),
       ("window_height", .vn 900),
       ("status_bar_visible", .vb true),
       ("line_numbers", .vb false) ]),
    ("editor",
     [ ("editor_command", .vs "notepad"),
       ("syntax_highlighting", .vb true),
       ("word_wrap", .vb false),
       ("tab_size", .vn 4),
       ("auto_indent", .vb true) ]),
    ("persistence",
     [ ("auto_save_loaded_objects", .vb false),
       ("loaded_objects_file", .vs "loaded_objects.pkl"),
       ("remember_window_position", .vb true),
       ("max_recent_files", .vn 10),
       ("pickle_protocol", .vn 4) ]),
    ("advanced",
     [ ("debug_mode", .vb false),
       ("log_file", .vs "object_browser.log"),
       ("enable_logging", .vb false),
       ("performance_mode", .vb false),
       ("large_file_warning_mb", .vn 100),
       ("memory_limit_mb", .vn 500) ]),
    ("colors",
     [ ("background", .vs "white"),
       ("foreground", .vs "black"),
       ("keyword_color", .vs "blue"),
       ("string_color", .vs "green"),
       ("comment_color", .vs "gray"),
       ("function_color", .vs "purple"),
       ("selection_bg", .vs "lightblue"),
       ("error_color", .vs "red") ]) ]

/-- The inner loop of the merge (src/settings_window.py, lines 97-99):
for each default key of a category that is present in the loaded document,
add the default value only when the key is missing (appended at the end,
as Python dict assignment does for a fresh key). -/
def mergeCat {α : Type} : List (String × α) → List (String × α) → List (String × α)
  | [], lcat => lcat
  | kv :: rest, lcat =>
    mergeCat rest (if (lookupS lcat kv.1).isNone then lcat ++ [kv] else lcat)

/-- The merge loop of `SettingsWindow.load_settings` (src/settings_window.py,
lines 93-99): for each default category, install the whole default map when
the category is missing from the loaded document, otherwise backfill its
missing keys. -/
def mergeDocs {α : Type} :
    List (String × List (String × α)) → List (String × List (String × α)) →
      List (String × List (String × α))
  | [], loaded => loaded
  | cd :: rest, loaded =>
    mergeDocs rest
      (match lookupS loaded cd.1 with
       | Option.none => setS loaded cd.1 cd.2
       | some lv => setS loaded cd.1 (mergeCat cd.2 lv))

/-- The effective settings document produced from a successfully parsed
`settings.json`: the loaded document merged under the defaults. -/
def load_settings_merge (loaded : Doc) : Doc :=
  mergeDocs defaultSettings loaded

/-- Two-level lookup: the value of `doc[cat][key]`. -/
def lookup2 {α : Type} (d : List (String × List (String × α))) (cat k : String) :
    Option α :=
  (lookupS d cat).bind fun m => lookupS m k

/-! ### The two full load paths (gating, decoding, store update) -/

/-- Outcome of `ObjectBrowser.load_object_python`: the resulting
`self.loaded_objects` store, the name the object was stored under (if it
was stored), and whether an error dialog was shown. -/
structure LoadOutcome where
  store : List (String × PyVal)
  added : Option String
  errorShown : Bool

/-- Model of `ObjectBrowser.load_object_python` (src/layout_editor.py,
lines 646-764) from the point where a readable file is chosen.  `fileSize`
is `os.path.getsize(filename)`; `confirmLarge` is the user's answer to the
large-file dialog (consulted only when the dialog is shown); `data` is the
file content; `nameChoice` is the object-name dialog result; and
`confirmOverwrite` answers the duplicate-name dialog.  The method has
access to the settings document but does not consult it: the large-file
threshold is the hard-coded `100 * 1024 * 1024`. -/
def load_object_python (settings : Doc) (fileSize : Nat) (confirmLarge : Bool)
    (data : List Nat) (nameChoice : Option String) (confirmOverwrite : Bool)
    (store : List (String × PyVal)) : LoadOutcome :=
  if fileSize > 100 * 1024 * 1024 && !confirmLarge then ⟨store, Option.none, false⟩
  else
    match pickleLoads data with
    | Option.none => ⟨store, Option.none, true⟩
    | some v =>
      match nameChoice with
      | Option.none => ⟨store, Option.none, false⟩
      | some nm =>
        if (lookupS store nm).isSome && !confirmOverwrite then ⟨store, Option.none, false⟩
        else ⟨setS store nm v, some nm, false⟩

/-- Outcome of `ObjectBrowser.load_object_binary`: as `LoadOutcome`, plus
the interpretation the sniffing chain settled on (`Option.none` when the
chain was never reached). -/
structure BinLoadOutcome where
  store : List (String × PyVal)
  added : Option String
  interp : Option String
  errorShown : Bool

/-- Model of `ObjectBrowser.load_object_binary` (src/layout_editor.py,
lines 866-987) from the point where a readable file is chosen: reject an
empty file with an error; gate files above the hard-coded
`100 * 1024 * 1024` threshold behind a confirmation; then run the
format-sniffing chain and store the result under the chosen name.  As in
the python-pickle path, the settings document is available but not
consulted. -/
def load_object_binary (settings : Doc) (fileSize : Nat) (confirmLarge : Bool)
    (data : List Nat) (nameChoice : Option String) (confirmOverwrite : Bool)
    (store : List (String × PyVal)) : BinLoadOutcome :=
  if fileSize == 0 then ⟨store, Option.none, Option.none, true⟩
  else if fileSize > 100 * 1024 * 1024 && !confirmLarge then
    ⟨store, Option.none, Option.none, false⟩
  else
    match nameChoice with
    | Option.none => ⟨store, Option.none, some (load_chain data).interpretation, false⟩
    | some nm =>
      if (lookupS store nm).isSome && !confirmOverwrite then
        ⟨store, Option.none, some (load_chain data).interpretation, false⟩
      else
        ⟨setS store nm (load_chain data).obj, some nm,
          some (load_chain data).interpretation, false⟩

/-- Modelled from the spec: the large-file gate as the specification
describes it, with the threshold taken from the
`advanced.large_file_warning_mb` setting (defaulting to 100 when the
setting is absent).  The source never reads this setting; this definition
exists to state claim C8 as written. -/
def claimed_large_gate (settings : Doc) (fileSize : Nat) : Bool :=
  let mb : Nat :=
    match lookup2 settings "advanced" "large_file_warning_mb" with
    | some (SVal.vn n) => n.toNat
    | _ => 100
  decide (fileSize > mb * 1024 * 1024)

/-! ### GraphWalker: `ObjectBrowser._enumerate_object`

Live Python object graphs may contain cycles, so values are modelled as a
heap: addresses index a list of heap objects whose children are addresses.
`hplain` covers everything that is neither a dict nor a list/tuple (the
`else` branch of the source); its `SKind` drives the `isinstance` tests,
`isCall` the `callable()` test, `hasDict` the `hasattr(x, "__dict__")`
test, and `attrs` the `dir()` enumeration with the values `getattr`
returns (a dangling address models a `getattr` that raises). -/

inductive SKind where
  | sstr
  | sint
  | sfloat
  | sbool
  | snone
  | sother
deriving DecidableEq

/-- One live object in the heap. -/
inductive HObj where
  | hdict (entries : List (String × Nat))
  | hseq (elems : List Nat)
  | hplain (sk : SKind) (isCall : Bool) (hasDict : Bool) (attrs : List (String × Nat))

/-- The object heap. -/
structure Heap where
  objs : List HObj

/-- Dereference an address. -/
def Heap.get (h : Heap) (a : Nat) : Option HObj := h.objs.get? a

/-- `isinstance(x, (str, int, float, bool, type(None)))` on the object at
an address: the guard the source uses before recursing into dict values
and sequence elements. -/
def isScalarOrNoneK (h : Heap) (a : Nat) : Bool :=
  match h.get a with
  | some (.hplain sk _ _ _) => decide (sk ≠ SKind.sother)
  | _ => false

/-- `callable(x)` on the object at an address. -/
def isCallableK (h : Heap) (a : Nat) : Bool :=
  match h.get a with
  | some (.hplain _ c _ _) => c
  | _ => false

/-- `isinstance(x, (dict, list, tuple))` on the object at an address. -/
def isDictSeqK (h : Heap) (a : Nat) : Bool :=
  match h.get a with
  | some (.hdict _) => true
  | some (.hseq _) => true
  | _ => false

/-- `hasattr(x, "__dict__")` on the object at an address. -/
def hasDictK (h : Heap) (a : Nat) : Bool :=
  match h.get a with
  | some (.hplain _ _ hd _) => hd
  | _ => false

/-- The recursion guard of the attribute branch (src/layout_editor.py,
lines 302-303): not a scalar or `None`, not callable, and either a
container or an object with a `__dict__`. -/
def canRecurseAttr (h : Heap) (a : Nat) : Bool :=
  !isScalarOrNoneK h a && !isCallableK h a && (isDictSeqK h a || hasDictK h a)

/-- Python's `name.startswith("_")`: the private/reserved name marker
test (structural, on the first character). -/
def startsUnderscore (s : String) : Bool :=
  match s.data with
  | c :: _ => c = '_'
  | [] => false

/-- One entry of the displayed tree: the entry name (key, index or
attribute name), the path expression, the address of the underlying live
object, whether the entry was produced by the attribute branch (as opposed
to the dict/sequence branches), and the child entries. -/
inductive Node where
  | mk (name : String) (path : String) (addr : Nat) (viaAttr : Bool)
      (children : List Node)

/-- Children of a node. -/
def Node.children : Node → List Node
  | .mk _ _ _ _ cs => cs

/-- Address of the live object a node displays. -/
def Node.addr : Node → Nat
  | .mk _ _ a _ _ => a

/-- Whether the node came from the attribute branch. -/
def Node.viaAttr : Node → Bool
  | .mk _ _ _ va _ => va

/-- Fueled core of `ObjectBrowser._enumerate_object` (src/layout_editor.py,
lines 220-309).  The source recurses with `depth + 1` against a fixed
`max_depth` and returns when `depth >= max_depth`; here `fuel` stands for
`max_depth - depth`, so the guard is `fuel = 0`.  `depth` is still passed
because the attribute branch skips names starting with the private marker
only when `depth > 0`.  Dict keys are rendered into paths with the key
text itself (the `repr(key)` quoting of the source is abstracted).  An
address that does not dereference yields no children, modelling the
`try/except: pass` that swallows enumeration errors. -/
def enumFuel (h : Heap) : Nat → Nat → String → Nat → List Node
  | 0, _, _, _ => []
  | f + 1, addr, objName, depth =>
    match h.get addr with
    | Option.none => []
    | some (.hdict entries) =>
      entries.map fun kv =>
        Node.mk kv.1 (objName ++ "[" ++ kv.1 ++ "]") kv.2 false
          (if !isScalarOrNoneK h kv.2 then
            enumFuel h f kv.2 (objName ++ "[" ++ kv.1 ++ "]") (depth + 1)
          else [])
    | some (.hseq elems) =>
      elems.enum.map fun iv =>
        Node.mk (toString iv.1) (objName ++ "[" ++ toString iv.1 ++ "]") iv.2 false
          (if !isScalarOrNoneK h iv.2 then
            enumFuel h f iv.2 (objName ++ "[" ++ toString iv.1 ++ "]") (depth + 1)
          else [])
    | some (.hplain _ _ _ attrs) =>
      (attrs.filter fun av =>
          !(decide (depth > 0) && startsUnderscore av.1) && (h.get av.2).isSome).map
        fun av =>
          Node.mk av.1 (objName ++ "." ++ av.1) av.2 true
            (if canRecurseAttr h av.2 then
              enumFuel h f av.2 (objName ++ "." ++ av.1) (depth + 1)
            else [])

/-- `ObjectBrowser._enumerate_object`: expand the object at `addr` into a
list of tree entries, starting at `depth` with bound `maxDepth`. -/
def enumerate_object (h : Heap) (addr : Nat) (objName : String)
    (depth maxDepth : Nat) : List Node :=
  enumFuel h (maxDepth - depth) addr objName depth

/-- The tree rooted at a node fits within `b` levels (a node needs at
least one level, its children fit in the remainder). -/
def boundedDepth : Nat → Node → Bool
  | 0, _ => false
  | b + 1, n => n.children.all (boundedDepth b)

/-- Every node in the forest that displays a callable object and came from
the attribute branch has no children, recursively to depth `b`. -/
def nodesOK (h : Heap) : Nat → List Node → Bool
  | 0, ns => ns.isEmpty
  | b + 1, ns =>
    ns.all fun n =>
      (!(n.viaAttr && isCallableK h n.addr) || n.children.isEmpty) &&
        nodesOK h b n.children

/-- A self-referential heap: address 0 holds a dict whose single value is
address 0 itself (`d = {}; d["self"] = d`). -/
def selfRefHeap : Heap := ⟨[HObj.hdict [("self", 0)]]⟩

/-- A heap where a dict maps key `f` to a callable object (address 1)
that carries a public attribute `x` holding an int (address 2): the
shape `{"f": obj}` with `obj` a callable instance. -/
def exHeap : Heap :=
  ⟨[HObj.hdict [("f", 1)],
    HObj.hplain SKind.sother true true [("x", 2)],
    HObj.hplain SKind.sint false false []]⟩

/-! ### Lemmas about the dict model and the settings merge -/

theorem lookupS_setS_self {α : Type} :
    ∀ (l : List (String × α)) (k : String) (v : α), lookupS (setS l k v) k = some v := by
  intro l k v
  induction l with
  | nil => simp [setS, lookupS]
  | cons kv t ih =>
    rcases Decidable.em (kv.1 = k) with h | h
    · simp [setS, h, lookupS]
    · simp [setS, h, lookupS, ih]

theorem lookupS_setS_ne {α : Type} :
    ∀ (l : List (String × α)) (k k1 : String) (v : α), k1 ≠ k →
      lookupS (setS l k v) k1 = lookupS l k1 := by
  intro l k k1 v hne
  induction l with
  | nil =>
    have h1 : ¬ k = k1 := fun h => hne h.symm
    simp [setS, lookupS, h1]
  | cons kv t ih =>
    rcases Decidable.em (kv.1 = k) with h | h
    · subst h
      have h1 : ¬ kv.1 = k1 := fun hh => hne hh.symm
      simp [setS, lookupS, h1]
    · simp [setS, h, lookupS, ih]

theorem lookupS_append {α : Type} :
    ∀ (a b : List (String × α)) (k : String),
      lookupS (a ++ b) k =
        match lookupS a k with
        | some v => some v
        | Option.none => lookupS b k := by
  intro a b k
  induction a with
  | nil => simp [lookupS]
  | cons kv t ih =>
    rcases Decidable.em (kv.1 = k) with h | h
    · simp [lookupS, h]
    · simp [lookupS, h, ih]

theorem mergeCat_pres {α : Type} :
    ∀ (dvals lcat : List (String × α)) (k : String) (v : α),
      lookupS lcat k = some v → lookupS (mergeCat dvals lcat) k = some v := by
  intro dvals
  induction dvals with
  | nil => intro lcat k v h; simpa [mergeCat] using h
  | cons kv rest ih =>
    intro lcat k v h
    rw [mergeCat]
    rcases Decidable.em ((lookupS lcat kv.1).isNone = true) with hm | hm
    · rw [if_pos hm]
      apply ih
      rw [lookupS_append, h]
    · rw [if_neg hm]
      exact ih lcat k v h

theorem mergeCat_backfill {α : Type} :
    ∀ (dvals lcat : List (String × α)) (k : String) (dv : α),
      lookupS lcat k = Option.none → lookupS dvals k = some dv →
      lookupS (mergeCat dvals lcat) k = some dv := by
  intro dvals
  induction dvals with
  | nil => intro lcat k dv _ hd; simp [lookupS] at hd
  | cons kv rest ih =>
    intro lcat k dv hl hd
    rw [mergeCat]
    rcases Decidable.em (kv.1 = k) with hk | hk
    · have hnone : (lookupS lcat kv.1).isNone = true := by rw [hk, hl]; rfl
      rw [if_pos hnone]
      have hdv : kv.2 = dv := by
        rw [lookupS, if_pos hk] at hd
        injection hd
      apply mergeCat_pres
      rw [lookupS_append, hl]
      subst hk hdv
      simp [lookupS]
    · have hd1 : lookupS rest k = some dv := by
        rw [lookupS, if_neg hk] at hd
        exact hd
      rcases Decidable.em ((lookupS lcat kv.1).isNone = true) with hm | hm
      · rw [if_pos hm]
        apply ih
        · rw [lookupS_append, hl]
          simp [lookupS, hk]
        · exact hd1
      · rw [if_neg hm]
        exact ih lcat k dv hl hd1

theorem mergeDocs_pres_other {α : Type} :
    ∀ (defs loaded : List (String × List (String × α))) (cat : String),
      cat ∉ defs.map Prod.fst →
      lookupS (mergeDocs defs loaded) cat = lookupS loaded cat := by
  intro defs
  induction defs with
  | nil => intro loaded cat _; simp [mergeDocs]
  | cons cd rest ih =>
    intro loaded cat hmem
    have hne : cat ≠ cd.1 := by
      intro h
      exact hmem (by simp [h])
    have hrest : cat ∉ rest.map Prod.fst := by
      intro h
      exact hmem (by simp [h])
    rw [mergeDocs]
    rcases hc : lookupS loaded cd.1 with _ | lv
    · rw [ih _ cat hrest, lookupS_setS_ne _ _ _ _ hne]
    · rw [ih _ cat hrest, lookupS_setS_ne _ _ _ _ hne]

theorem mergeDocs_value_pres {α : Type} :
    ∀ (defs loaded : List (String × List (String × α))) (cat k : String) (v : α),
      lookup2 loaded cat k = some v → lookup2 (mergeDocs defs loaded) cat k = some v := by
  intro defs
  induction defs with
  | nil => intro loaded cat k v h; simpa [mergeDocs] using h
  | cons cd rest ih =>
    intro loaded cat k v h
    rw [mergeDocs]
    rcases hc : lookupS loaded cd.1 with _ | lv
    · apply ih
      rcases Decidable.em (cat = cd.1) with he | he
      · subst he
        rw [lookup2, hc] at h
        exact absurd h (by simp)
      · rw [lookup2, lookupS_setS_ne _ _ _ _ he, ← lookup2]
        exact h
    · apply ih
      rcases Decidable.em (cat = cd.1) with he | he
      · subst he
        rw [lookup2, hc] at h
        rw [lookup2, lookupS_setS_self]
        exact mergeCat_pres _ _ _ _ h
      · rw [lookup2, lookupS_setS_ne _ _ _ _ he, ← lookup2]
        exact h

theorem mergeDocs_loaded_cat {α : Type} :
    ∀ (defs loaded : List (String × List (String × α))) (cat : String)
      (lv : List (String × α)),
      lookupS defs cat = Option.none → lookupS loaded cat = some lv →
      lookupS (mergeDocs defs loaded) cat = some lv := by
  intro defs
  induction defs with
  | nil => intro loaded cat lv _ h; simpa [mergeDocs] using h
  | cons cd rest ih =>
    intro loaded cat lv hd hl
    have hne : cd.1 ≠ cat := by
      intro h
      rw [lookupS, if_pos h] at hd
      cases hd
    have hd1 : lookupS rest cat = Option.none := by
      rw [lookupS, if_neg hne] at hd
      exact hd
    rw [mergeDocs]
    rcases hc : lookupS loaded cd.1 with _ | lv1
    · apply ih _ _ _ hd1
      rw [lookupS_setS_ne _ _ _ _ (fun h => hne h.symm)]
      exact hl
    · apply ih _ _ _ hd1
      rw [lookupS_setS_ne _ _ _ _ (fun h => hne h.symm)]
      exact hl

theorem mergeDocs_backfill {α : Type} :
    ∀ (defs loaded : List (String × List (String × α))) (cat k : String)
      (dvals : List (String × α)) (dv : α),
      (defs.map Prod.fst).Nodup →
      lookupS defs cat = some dvals → lookupS dvals k = some dv →
      lookup2 loaded cat k = Option.none →
      lookup2 (mergeDocs defs loaded) cat k = some dv := by
  intro defs
  induction defs with
  | nil => intro loaded cat k dvals dv _ hd; simp [lookupS] at hd
  | cons cd rest ih =>
    intro loaded cat k dvals dv hnd hd hk hmiss
    have hnd0 : (cd.1 :: rest.map Prod.fst).Nodup := by
      rw [List.map_cons] at hnd
      exact hnd
    have hnd1 : (rest.map Prod.fst).Nodup := (List.nodup_cons.mp hnd0).2
    have hnotin : cd.1 ∉ rest.map Prod.fst := (List.nodup_cons.mp hnd0).1
    rcases Decidable.em (cd.1 = cat) with he | he
    · subst he
      have hdv : dvals = cd.2 := by
        rw [lookupS, if_pos rfl] at hd
        injection hd with h
        exact h.symm
      subst hdv
      rw [mergeDocs]
      rcases hc : lookupS loaded cd.1 with _ | lv
      · rw [lookup2, mergeDocs_pres_other rest _ cd.1 hnotin, lookupS_setS_self]
        exact hk
      · have hlvk : lookupS lv k = Option.none := by
          rw [lookup2, hc] at hmiss
          simpa using hmiss
        rw [lookup2, mergeDocs_pres_other rest _ cd.1 hnotin, lookupS_setS_self]
        exact mergeCat_backfill _ _ _ _ hlvk hk
    · have hd1 : lookupS rest cat = some dvals := by
        rw [lookupS, if_neg he] at hd
        exact hd
      rw [mergeDocs]
      rcases hc : lookupS loaded cd.1 with _ | lv
      · apply ih _ _ _ _ _ hnd1 hd1 hk
        rw [lookup2, lookupS_setS_ne _ _ _ _ (fun h => he h.symm), ← lookup2]
        exact hmiss
      · apply ih _ _ _ _ _ hnd1 hd1 hk
        rw [lookup2, lookupS_setS_ne _ _ _ _ (fun h => he h.symm), ← lookup2]
        exact hmiss

/-! ### Lemmas about the walker -/

theorem nodesOK_nil (h : Heap) : ∀ f : Nat, nodesOK h f [] = true := by
  intro f
  cases f <;> simp [nodesOK]

theorem canRecurse_not_callable (h : Heap) (a : Nat) :
    canRecurseAttr h a = true → isCallableK h a = false := by
  intro hc
  rw [canRecurseAttr, Bool.and_eq_true, Bool.and_eq_true] at hc
  have := hc.1.2
  cases hcall : isCallableK h a
  · rfl
  · rw [hcall] at this
    cases this

theorem enumFuel_bounded :
    ∀ (f : Nat) (h : Heap) (addr : Nat) (nm : String) (d : Nat),
      (enumFuel h f addr nm d).all (boundedDepth f) = true := by
  intro f
  induction f with
  | zero => intro h addr nm d; simp [enumFuel]
  | succ f ih =>
    intro h addr nm d
    rw [enumFuel]
    cases hg : h.get addr with
    | none => rfl
    | some o =>
      cases o with
      | hdict entries =>
        rw [List.all_eq_true]
        intro n hn
        rw [List.mem_map] at hn
        obtain ⟨kv, _, rfl⟩ := hn
        simp only [boundedDepth, Node.children]
        rcases Decidable.em ((!isScalarOrNoneK h kv.2) = true) with hc | hc
        · rw [if_pos hc]
          exact ih h kv.2 _ _
        · rw [if_neg hc]
          rfl
      | hseq elems =>
        rw [List.all_eq_true]
        intro n hn
        rw [List.mem_map] at hn
        obtain ⟨iv, _, rfl⟩ := hn
        simp only [boundedDepth, Node.children]
        rcases Decidable.em ((!isScalarOrNoneK h iv.2) = true) with hc | hc
        · rw [if_pos hc]
          exact ih h iv.2 _ _
        · rw [if_neg hc]
          rfl
      | hplain sk c hd attrs =>
        rw [List.all_eq_true]
        intro n hn
        rw [List.mem_map] at hn
        obtain ⟨av, _, rfl⟩ := hn
        simp only [boundedDepth, Node.children]
        rcases Decidable.em (canRecurseAttr h av.2 = true) with hc | hc
        · rw [if_pos hc]
          exact ih h av.2 _ _
        · rw [if_neg hc]
          rfl

theorem enumFuel_nodesOK :
    ∀ (f : Nat) (h : Heap) (addr : Nat) (nm : String) (d : Nat),
      nodesOK h f (enumFuel h f addr nm d) = true := by
  intro f
  induction f with
  | zero => intro h addr nm d; simp [enumFuel, nodesOK]
  | succ f ih =>
    intro h addr nm d
    rw [enumFuel]
    cases hg : h.get addr with
    | none => simp [nodesOK]
    | some o =>
      cases o with
      | hdict entries =>
        rw [nodesOK, List.all_eq_true]
        intro n hn
        rw [List.mem_map] at hn
        obtain ⟨kv, _, rfl⟩ := hn
        simp only [Node.children, Node.viaAttr, Node.addr, Bool.false_and,
          Bool.not_false, Bool.true_or, Bool.true_and]
        rcases Decidable.em ((!isScalarOrNoneK h kv.2) = true) with hc | hc
        · rw [if_pos hc]
          exact ih h kv.2 _ _
        · rw [if_neg hc]
          exact nodesOK_nil h f
      | hseq elems =>
        rw [nodesOK, List.all_eq_true]
        intro n hn
        rw [List.mem_map] at hn
        obtain ⟨iv, _, rfl⟩ := hn
        simp only [Node.children, Node.viaAttr, Node.addr, Bool.false_and,
          Bool.not_false, Bool.true_or, Bool.true_and]
        rcases Decidable.em ((!isScalarOrNoneK h iv.2) = true) with hc | hc
        · rw [if_pos hc]
          exact ih h iv.2 _ _
        · rw [if_neg hc]
          exact nodesOK_nil h f
      | hplain sk c hd attrs =>
        rw [nodesOK, List.all_eq_true]
        intro n hn
        rw [List.mem_map] at hn
        obtain ⟨av, _, rfl⟩ := hn
        simp only [Node.children, Node.viaAttr, Node.addr, Bool.true_and]
        rcases Decidable.em (canRecurseAttr h av.2 = true) with hc | hc
        · rw [if_pos hc]
          have hcall := canRecurse_not_callable h av.2 hc
          rw [hcall]
          simp only [Bool.and_false, Bool.not_false, Bool.true_or, Bool.true_and]
          exact ih h av.2 _ _
        · rw [if_neg hc]
          simp only [List.isEmpty_nil, Bool.or_true, Bool.true_and]
          exact nodesOK_nil h f

/-! ### Lemmas about the load chain -/

theorem isNoneB_eq_none : ∀ v : PyVal, isNoneB v = true → v = PyVal.none := by
  intro v
  cases v <;> simp [isNoneB]

/-! ### Claim theorems -/

/-- C1: for every value on which native-format (pickle) serialization
succeeds, the save path's encoder (`save_object_python` writing the
in-memory pickle buffer) followed by the load path's decoder
(`pickle.load`, here `pickleLoads`, inside `load_object_python`)
reproduces a value structurally equal to the original: the decoded value
is `v` itself, and the full load path stores exactly `v` under the chosen
name. -/
theorem c1_save_load_roundtrip :
    ∀ (v : PyVal) (data : List Nat),
      (save_object_python v).fileWritten = some data →
      pickleLoads data = some v ∧
      load_object_python defaultSettings data.length true data (some "obj") true [] =
        ⟨[("obj", v)], some "obj", false⟩ := by
  intro v data hw
  rcases hd : pickleDumps v with _ | b
  · rw [save_object_python, hd] at hw
    cases hw
  · rw [save_object_python, hd] at hw
    injection hw with hb
    subst hb
    have hpick : picklableB v = true := by
      rcases Decidable.em (picklableB v = true) with h | h
      · exact h
      · rw [pickleDumps, if_neg h] at hd
        cases hd
    have hdata : b = pickleEnc v := by
      rw [pickleDumps, if_pos hpick] at hd
      injection hd with h
      exact h.symm
    subst hdata
    have hload : pickleLoads (pickleEnc v) = some v := pickle_roundtrip v hpick
    refine ⟨hload, ?_⟩
    simp [load_object_python, hload, lookupS, setS]

/-- C1 witness: a concrete dict round-trips through the save and load
paths. -/
theorem c1_witness :
    pickleLoads (pickleEnc (PyVal.dict [(strCps "a", PyVal.int 1),
        (strCps "b", PyVal.list [PyVal.int 2, PyVal.int 3])])) =
      some (PyVal.dict [(strCps "a", PyVal.int 1),
        (strCps "b", PyVal.list [PyVal.int 2, PyVal.int 3])]) ∧
    load_object_python defaultSettings
        (pickleEnc (PyVal.dict [(strCps "a", PyVal.int 1),
          (strCps "b", PyVal.list [PyVal.int 2, PyVal.int 3])])).length true
        (pickleEnc (PyVal.dict [(strCps "a", PyVal.int 1),
          (strCps "b", PyVal.list [PyVal.int 2, PyVal.int 3])]))
        (some "obj") true [] =
      ⟨[("obj", PyVal.dict [(strCps "a", PyVal.int 1),
        (strCps "b", PyVal.list [PyVal.int 2, PyVal.int 3])])], some "obj", false⟩ :=
  c1_save_load_roundtrip _ _ rfl

/-- C5: the native-format save pickles to an in-memory buffer first; if
serialization fails the save is aborted with a reported error and no file
is ever created, and on success the identical buffer is written verbatim. -/
theorem c5_save_python_atomic :
    ∀ v : PyVal,
      (pickleDumps v = Option.none →
        (save_object_python v).fileWritten = Option.none ∧
        (save_object_python v).errorReported = true) ∧
      (∀ b : List Nat, pickleDumps v = some b →
        (save_object_python v).fileWritten = some b ∧
        (save_object_python v).errorReported = false) := by
  intro v
  constructor
  · intro h
    rw [save_object_python, h]
    exact ⟨rfl, rfl⟩
  · intro b h
    rw [save_object_python, h]
    exact ⟨rfl, rfl⟩

/-- C5 witness: a non-serializable foreign value aborts with no file
written; a serializable value writes exactly the pickled buffer. -/
theorem c5_witness :
    ((save_object_python (PyVal.foreign 0 false)).fileWritten = Option.none ∧
      (save_object_python (PyVal.foreign 0 false)).errorReported = true) ∧
    ((save_object_python (PyVal.int 3)).fileWritten = some (pickleEnc (PyVal.int 3)) ∧
      (save_object_python (PyVal.int 3)).errorReported = false) :=
  ⟨(c5_save_python_atomic (PyVal.foreign 0 false)).1 rfl,
   (c5_save_python_atomic (PyVal.int 3)).2 (pickleEnc (PyVal.int 3)) rfl⟩

/-- C2 counterexample: the pickle serialization of the value `None` is a
valid native-format buffer, yet the binary load chain does not report the
native format for it: `pickle.loads` succeeds and returns `None`, which is
indistinguishable from the chain's not-yet-decoded sentinel, so the chain
falls through (JSON and UTF-8 both fail on the binary pickle bytes) and
reports the raw bytes. -/
theorem c2_counterexample :
    pickleDumps PyVal.none = some [tNone] ∧
    (load_chain [tNone]).interpretation = "raw bytes" ∧
    (load_chain [tNone]).obj = PyVal.bytes [tNone] ∧
    (load_chain [tNone]).interpretation ≠ "Python pickle" := by
  refine ⟨rfl, rfl, rfl, ?_⟩
  intro h
  exact absurd h (by decide)

/-- C2 amended: for every byte buffer that is valid native-format output
of a value other than `None`, the binary load chain reports the native
format ("Python pickle"), returns that value, and records no failed
attempts — it never falls through to the JSON, UTF-8-text or raw-bytes
steps.  (A pickled `None` collides with the chain's `None` sentinel and
does fall through; see the counterexample.) -/
theorem c2_amended :
    ∀ (v : PyVal) (data : List Nat), pickleDumps v = some data →
      isNoneB v = false →
      load_chain data = ⟨v, "Python pickle", []⟩ := by
  intro v data hd hv
  have hpick : picklableB v = true := by
    rcases Decidable.em (picklableB v = true) with h | h
    · exact h
    · rw [pickleDumps, if_neg h] at hd
      cases hd
  have hdata : data = pickleEnc v := by
    rw [pickleDumps, if_pos hpick] at hd
    injection hd with h
    exact h.symm
  subst hdata
  have hload : pickleLoads (pickleEnc v) = some v := pickle_roundtrip v hpick
  rw [load_chain, chain1, hload]
  simp [chain2, chain3, chain4, hv]

/-- C2 amended witness: a pickled integer is reported as Python pickle
with no failed attempts. -/
theorem c2_amended_witness :
    load_chain (pickleEnc (PyVal.int 7)) = ⟨PyVal.int 7, "Python pickle", []⟩ :=
  c2_amended (PyVal.int 7) (pickleEnc (PyVal.int 7)) rfl rfl

/-- C4: on the portable-binary save path the type-directed conversion
rules are tried in exactly the fixed order the specification gives —
(1) bytes written unchanged, (2) str UTF-8-encoded with the save aborted
on encoding failure, (3) numbers as decimal text, (4) dict/list/tuple as
JSON falling back to pickle when JSON fails, (5) anything else pickled
with the save aborted and reported if that also fails — with the first
matching rule determining the bytes written: the source conversion chain
equals the first-match interpretation of the five ordered rules. -/
theorem c4_bin_save_chain :
    ∀ v : PyVal, save_object_binary v = firstMatch binRules v := by
  intro v
  cases v <;>
    simp [save_object_binary, firstMatch, binRules, isBytesB, isStrB, isNumB,
      isContainerB]

theorem isNoneB_none : isNoneB PyVal.none = true := rfl

theorem isNoneB_str (s : List Nat) : isNoneB (PyVal.str s) = false := rfl

theorem isNoneB_bytes (bs : List Nat) : isNoneB (PyVal.bytes bs) = false := rfl

/-- C3: for any byte sequence handed to the binary load chain, some
interpretation is returned — Python pickle, JSON, UTF-8 text or, in the
worst case, the raw byte sequence unmodified (so the chain itself never
fails) — and every attempted-and-failed step is recorded in the
diagnostic `attempts` list: the pickle step is always attempted; the JSON
step is attempted exactly when the value decoded so far is still the
`None` sentinel; and likewise for the UTF-8-text step. -/
theorem c3_load_chain_total :
    ∀ data : List Nat,
      ((load_chain data).interpretation = "Python pickle" ∨
        (load_chain data).interpretation = "JSON" ∨
        (load_chain data).interpretation = "UTF-8 text" ∨
        (load_chain data).interpretation = "raw bytes") ∧
      ((load_chain data).interpretation = "raw bytes" →
        (load_chain data).obj = PyVal.bytes data) ∧
      (pickleLoads data = Option.none → "Pickle" ∈ (load_chain data).attempts) ∧
      ((pickleLoads data).getD PyVal.none = PyVal.none →
        jsonStep data = Option.none → "JSON" ∈ (load_chain data).attempts) ∧
      ((pickleLoads data).getD PyVal.none = PyVal.none →
        (jsonStep data).getD PyVal.none = PyVal.none →
        utf8Decode data = Option.none →
        "UTF-8" ∈ (load_chain data).attempts) := by
  intro data
  rcases hp : pickleLoads data with _ | v
  · have h1 : chain1 data = ⟨PyVal.none, "unknown", ["Pickle"]⟩ := by
      rw [chain1, hp]
    rcases hj : jsonStep data with _ | w
    · rcases hu : utf8Decode data with _ | s
      · have hr : load_chain data = ⟨PyVal.bytes data, "raw bytes",
            ["Pickle", "JSON", "UTF-8"]⟩ := by
          rw [load_chain, h1]
          simp [chain2, chain3, chain4, hj, hu, isNoneB_none, isNoneB_bytes]
        rw [hr]
        exact ⟨by simp, fun _ => rfl, fun _ => by simp, fun _ _ => by simp,
          fun _ _ _ => by simp⟩
      · have hr : load_chain data = ⟨PyVal.str s, "UTF-8 text", ["Pickle", "JSON"]⟩ := by
          rw [load_chain, h1]
          simp [chain2, chain3, chain4, hj, hu, isNoneB_none, isNoneB_str]
        rw [hr]
        refine ⟨by simp, ?_, fun _ => by simp, fun _ _ => by simp, ?_⟩
        · intro h
          simp at h
        · intro _ _ h
          cases h
    · rcases hw : isNoneB w with _ | _
      · have hr : load_chain data = ⟨w, "JSON", ["Pickle"]⟩ := by
          rw [load_chain, h1]
          simp [chain2, chain3, chain4, hj, hw, isNoneB_none]
        rw [hr]
        refine ⟨by simp, ?_, fun _ => by simp, ?_, ?_⟩
        · intro h
          simp at h
        · intro _ h
          cases h
        · intro _ h _
          have hwn : w = PyVal.none := by simpa using h
          rw [hwn] at hw
          cases hw
      · have hwn : w = PyVal.none := isNoneB_eq_none w hw
        subst hwn
        rcases hu : utf8Decode data with _ | s
        · exfalso
          rw [jsonStep, hu] at hj
          cases hj
        · have hr : load_chain data = ⟨PyVal.str s, "UTF-8 text", ["Pickle"]⟩ := by
            rw [load_chain, h1]
            simp [chain2, chain3, chain4, hj, hu, isNoneB_none, isNoneB_str]
          rw [hr]
          refine ⟨by simp, ?_, fun _ => by simp, ?_, ?_⟩
          · intro h
            simp at h
          · intro _ h
            cases h
          · intro _ _ h
            cases h
  · have h1 : chain1 data = ⟨v, "Python pickle", []⟩ := by
      rw [chain1, hp]
    rcases hv : isNoneB v with _ | _
    · have hr : load_chain data = ⟨v, "Python pickle", []⟩ := by
        rw [load_chain, h1]
        simp [chain2, chain3, chain4, hv]
      rw [hr]
      refine ⟨by simp, ?_, ?_, ?_, ?_⟩
      · intro h
        simp at h
      · intro h
        cases h
      · intro h _
        have hvn : v = PyVal.none := by simpa using h
        rw [hvn] at hv
        cases hv
      · intro h _ _
        have hvn : v = PyVal.none := by simpa using h
        rw [hvn] at hv
        cases hv
    · have hvn : v = PyVal.none := isNoneB_eq_none v hv
      subst hvn
      rcases hj : jsonStep data with _ | w
      · rcases hu : utf8Decode data with _ | s
        · have hr : load_chain data = ⟨PyVal.bytes data, "raw bytes",
              ["JSON", "UTF-8"]⟩ := by
            rw [load_chain, h1]
            simp [chain2, chain3, chain4, hj, hu, isNoneB_none, isNoneB_bytes]
          rw [hr]
          refine ⟨by simp, fun _ => rfl, ?_, fun _ _ => by simp, fun _ _ _ => by simp⟩
          intro h
          cases h
        · have hr : load_chain data = ⟨PyVal.str s, "UTF-8 text", ["JSON"]⟩ := by
            rw [load_chain, h1]
            simp [chain2, chain3, chain4, hj, hu, isNoneB_none, isNoneB_str]
          rw [hr]
          refine ⟨by simp, ?_, ?_, fun _ _ => by simp, ?_⟩
          · intro h
            simp at h
          · intro h
            cases h
          · intro _ _ h
            cases h
      · rcases hw : isNoneB w with _ | _
        · have hr : load_chain data = ⟨w, "JSON", []⟩ := by
            rw [load_chain, h1]
            simp [chain2, chain3, chain4, hj, hw, isNoneB_none]
          rw [hr]
          refine ⟨by simp, ?_, ?_, ?_, ?_⟩
          · intro h
            simp at h
          · intro h
            cases h
          · intro _ h
            cases h
          · intro _ h _
            have hwn : w = PyVal.none := by simpa using h
            rw [hwn] at hw
            cases hw
        · have hwn : w = PyVal.none := isNoneB_eq_none w hw
          subst hwn
          rcases hu : utf8Decode data with _ | s
          · exfalso
            rw [jsonStep, hu] at hj
            cases hj
          · have hr : load_chain data = ⟨PyVal.str s, "UTF-8 text", []⟩ := by
              rw [load_chain, h1]
              simp [chain2, chain3, chain4, hj, hu, isNoneB_none, isNoneB_str]
            rw [hr]
            refine ⟨by simp, ?_, ?_, ?_, ?_⟩
            · intro h
              simp at h
            · intro h
              cases h
            · intro _ h
              cases h
            · intro _ _ h
              cases h

/-- C3 witness: on a one-byte buffer that is neither valid pickle (the
byte is not a stream tag) nor valid JSON, the chain settles on UTF-8 text
and records the pickle and JSON attempts. -/
theorem c3_witness :
    ((load_chain [65]).interpretation = "Python pickle" ∨
      (load_chain [65]).interpretation = "JSON" ∨
      (load_chain [65]).interpretation = "UTF-8 text" ∨
      (load_chain [65]).interpretation = "raw bytes") ∧
    "Pickle" ∈ (load_chain [65]).attempts ∧
    "JSON" ∈ (load_chain [65]).attempts := by
  have h := c3_load_chain_total [65]
  exact ⟨h.1, h.2.2.1 rfl, h.2.2.2.1 rfl rfl⟩

/-- C6: for every heap — including a composite value containing a
reference to itself, such as `selfRefHeap` — graph expansion is a total
function (it terminates) and every produced tree entry lies strictly
within `maxDepth - depth` further levels, so no Node exists at depth at
least `maxDepth`, regardless of branching factor. -/
theorem c6_depth_bound :
    (∀ (h : Heap) (addr : Nat) (objName : String) (depth maxDepth : Nat),
      (enumerate_object h addr objName depth maxDepth).all
        (boundedDepth (maxDepth - depth)) = true) ∧
    (enumerate_object selfRefHeap 0 "self" 0 6).all (boundedDepth 6) = true := by
  constructor
  · intro h addr objName depth maxDepth
    exact enumFuel_bounded (maxDepth - depth) h addr objName depth
  · exact enumFuel_bounded 6 selfRefHeap 0 "self" 0

/-- C7 counterexample: in `exHeap` a dict maps key `f` to a callable
object that carries a public attribute; the walker recurses into that
callable (the dict branch checks only for scalars, not for callables), so
the node displaying the callable has a child — contradicting the claim
that a node whose underlying value is callable never has children when
the callable is reached as a mapping value. -/
theorem c7_counterexample :
    isCallableK exHeap 1 = true ∧
    enumerate_object exHeap 0 "root" 0 6 =
      [Node.mk "f" "root[f]" 1 false [Node.mk "x" "root[f].x" 2 true []]] ∧
    (Node.mk "f" "root[f]" 1 false [Node.mk "x" "root[f].x" 2 true []]).children ≠ [] := by
  refine ⟨rfl, rfl, ?_⟩
  intro h
  simp [Node.children] at h

/-- C7 amended: callables reached as object attributes are never expanded
— in every produced tree, a node created by the attribute branch whose
underlying value is callable has no children.  (Callables reached as
mapping values or sequence elements are recursed into like any other
non-scalar value and may have children; see the counterexample.) -/
theorem c7_callable_attrs_unexpanded :
    ∀ (h : Heap) (addr : Nat) (objName : String) (depth maxDepth : Nat),
      nodesOK h (maxDepth - depth)
        (enumerate_object h addr objName depth maxDepth) = true := by
  intro h addr objName depth maxDepth
  exact enumFuel_nodesOK (maxDepth - depth) h addr objName depth

/-- C8 counterexample: with `advanced.large_file_warning_mb` set to 1,
the gate the claim describes fires for a 2 MB file, yet the load path
proceeds to completion without any confirmation (`confirmLarge = false`)
— the code compares against the hard-coded 100 MB, not the setting. -/
theorem c8_counterexample :
    claimed_large_gate [("advanced", [("large_file_warning_mb", SVal.vn 1)])]
      2097152 = true ∧
    load_object_python [("advanced", [("large_file_warning_mb", SVal.vn 1)])]
        2097152 false (pickleEnc (PyVal.int 5)) (some "x") false [] =
      ⟨[("x", PyVal.int 5)], some "x", false⟩ := by
  exact ⟨rfl, rfl⟩

/-- C8 amended: both load paths are independent of the settings document
and compare the file size against the hard-coded threshold
`100 * 1024 * 1024`; whenever the size exceeds it and the confirmation is
declined, the load aborts with the store unchanged. -/
theorem c8_hardcoded_gate :
    ∀ (s1 s2 : Doc) (fileSize : Nat) (confirmLarge : Bool) (data : List Nat)
      (nameChoice : Option String) (confirmOverwrite : Bool)
      (store : List (String × PyVal)),
      load_object_python s1 fileSize confirmLarge data nameChoice confirmOverwrite
          store =
        load_object_python s2 fileSize confirmLarge data nameChoice confirmOverwrite
          store ∧
      load_object_binary s1 fileSize confirmLarge data nameChoice confirmOverwrite
          store =
        load_object_binary s2 fileSize confirmLarge data nameChoice confirmOverwrite
          store ∧
      (fileSize > 100 * 1024 * 1024 → confirmLarge = false →
        load_object_python s1 fileSize confirmLarge data nameChoice confirmOverwrite
            store =
          ⟨store, Option.none, false⟩ ∧
        load_object_binary s1 fileSize confirmLarge data nameChoice confirmOverwrite
            store =
          ⟨store, Option.none, Option.none, false⟩) := by
  intro s1 s2 fileSize cl data nc co store
  refine ⟨rfl, rfl, ?_⟩
  intro hgt hcl
  subst hcl
  have h0 : fileSize ≠ 0 := by omega
  constructor
  · simp [load_object_python, hgt]
  · simp [load_object_binary, hgt, h0]

/-- C8 amended witness: a file one byte over the hard-coded 100 MB
threshold with the confirmation declined is rejected by both paths,
leaving the store unchanged. -/
theorem c8_gate_witness :
    load_object_python defaultSettings 104857601 false [65] (some "x") true [] =
      ⟨[], Option.none, false⟩ ∧
    load_object_binary defaultSettings 104857601 false [65] (some "x") true [] =
      ⟨[], Option.none, Option.none, false⟩ :=
  (c8_hardcoded_gate defaultSettings [] 104857601 false [65] (some "x") true
    []).2.2 (by decide) rfl

/-- C9: after merging a loaded settings document with the hard-coded
defaults, every (category, key) pair of the default document is present in
the effective document (missing entries are backfilled with the default
value), while categories present only in the loaded document and values
already present in the loaded document are preserved verbatim. -/
theorem c9_settings_merge :
    ∀ loaded : Doc,
      (∀ (cat k : String) (dvals : List (String × SVal)) (dv : SVal),
        lookupS defaultSettings cat = some dvals → lookupS dvals k = some dv →
        lookup2 loaded cat k = Option.none →
        lookup2 (load_settings_merge loaded) cat k = some dv) ∧
      (∀ (cat k : String) (dvals : List (String × SVal)) (dv : SVal),
        lookupS defaultSettings cat = some dvals → lookupS dvals k = some dv →
        ∃ v, lookup2 (load_settings_merge loaded) cat k = some v) ∧
      (∀ (cat : String) (lv : List (String × SVal)),
        lookupS defaultSettings cat = Option.none → lookupS loaded cat = some lv →
        lookupS (load_settings_merge loaded) cat = some lv) ∧
      (∀ (cat k : String) (v : SVal),
        lookup2 loaded cat k = some v →
        lookup2 (load_settings_merge loaded) cat k = some v) := by
  intro loaded
  have hnd : (defaultSettings.map Prod.fst).Nodup := by decide
  refine ⟨?_, ?_, ?_, ?_⟩
  · intro cat k dvals dv hc hk hm
    exact mergeDocs_backfill defaultSettings loaded cat k dvals dv hnd hc hk hm
  · intro cat k dvals dv hc hk
    rcases hm : lookup2 loaded cat k with _ | v
    · exact ⟨dv, mergeDocs_backfill defaultSettings loaded cat k dvals dv hnd hc hk hm⟩
    · exact ⟨v, mergeDocs_value_pres defaultSettings loaded cat k v hm⟩
  · intro cat lv hd hl
    exact mergeDocs_loaded_cat defaultSettings loaded cat lv hd hl
  · intro cat k v hm
    exact mergeDocs_value_pres defaultSettings loaded cat k v hm

/-- C9 witness: merging a document that misses the `colors` category
entirely, customizes one `advanced` key and carries an unknown category:
the default `colors.background` is backfilled, the unknown category and
the customized value survive verbatim. -/
theorem c9_witness :
    lookup2 (load_settings_merge
        [("advanced", [("large_file_warning_mb", SVal.vn 1)]),
         ("extra", [("a", SVal.vb true)])]) "colors" "background" =
      some (SVal.vs "white") ∧
    lookupS (load_settings_merge
        [("advanced", [("large_file_warning_mb", SVal.vn 1)]),
         ("extra", [("a", SVal.vb true)])]) "extra" =
      some [("a", SVal.vb true)] ∧
    lookup2 (load_settings_merge
        [("advanced", [("large_file_warning_mb", SVal.vn 1)]),
         ("extra", [("a", SVal.vb true)])]) "advanced" "large_file_warning_mb" =
      some (SVal.vn 1) :=
  ⟨(c9_settings_merge
      [("advanced", [("large_file_warning_mb", SVal.vn 1)]),
       ("extra", [("a", SVal.vb true)])]).1 "colors" "background" _ _ rfl rfl rfl,
   (c9_settings_merge
      [("advanced", [("large_file_warning_mb", SVal.vn 1)]),
       ("extra", [("a", SVal.vb true)])]).2.2.1 "extra" _ rfl rfl,
   (c9_settings_merge
      [("advanced", [("large_file_warning_mb", SVal.vn 1)]),
       ("extra", [("a", SVal.vb true)])]).2.2.2 "advanced" "large_file_warning_mb"
     _ rfl⟩

/-- C10: the binary load rejects a zero-byte file with an error before
attempting any interpretation — the store is unchanged, nothing is added
and no interpretation is reported — and the sniffing chain is reached
only when the file size is non-zero. -/
theorem c10_empty_file :
    ∀ (settings : Doc) (confirmLarge : Bool) (data : List Nat)
      (nameChoice : Option String) (confirmOverwrite : Bool)
      (store : List (String × PyVal)),
      load_object_binary settings 0 confirmLarge data nameChoice confirmOverwrite
          store =
        ⟨store, Option.none, Option.none, true⟩ ∧
      (∀ fileSize : Nat,
        (load_object_binary settings fileSize confirmLarge data nameChoice
          confirmOverwrite store).interp.isSome = true → fileSize ≠ 0) := by
  intro s cl data nc co store
  constructor
  · rfl
  · intro fs h hfs
    subst hfs
    simp [load_object_binary] at h

/-- C10 witness: a zero-size load reports the error and leaves the store
untouched; a one-byte load does reach the chain and reports an
interpretation. -/
theorem c10_witness :
    load_object_binary defaultSettings 0 false [65] (some "t") true [] =
      ⟨[], Option.none, Option.none, true⟩ ∧
    (1 : Nat) ≠ 0 :=
  ⟨(c10_empty_file defaultSettings false [65] (some "t") true []).1,
   (c10_empty_file defaultSettings false [65] (some "t") true []).2 1 rfl⟩
